import Mathlib

/-!
Shallow embedding of `src/protocol/src/fixed_codec/primitive.rs`: the
FixedCodec implementations for primitive scalars, and the RLP adapters for
the domain types `Hex`, `Hash`, `Address`, `ValidatorExtend`, `Metadata`.

Modelling conventions:
  * A Rust byte buffer (`Bytes`) is a `List Nat` whose entries are intended
    to be `< 256`; where a property depends on entries being bytes, the
    theorem carries that bound as a hypothesis.
  * Machine integers (`u8`, `u32`, `u64`) are `Nat` with explicit range
    hypotheses (`< 2 ^ 32`, `< 2 ^ 64`) where the range matters.
  * Fallible Rust code returning `ProtocolResult`/`Result<_, DecoderError>`
    becomes `Except`.  A reachable panic (an abort that is not a returned
    error) is modelled as `Option.none` around the result type.
  * The external `rlp` crate ("canonical RLP engine", an external
    collaborator per the specification) serialises trees of byte strings.
    RLP values are modelled as those trees (`RlpItem`); the crate's reader
    API (`at`, `is_list`, `size`, `data`, `as_val` for integers and
    strings) is modelled over the trees with the crate's documented
    semantics.  The crate's serialisation between bytes and trees is outside
    the repository and is not re-verified here.
-/

/-- A Rust `Bytes` buffer: a list of byte values. -/
abbrev Bytes := List Nat

/-- Errors of the external `rlp` crate's `DecoderError`, restricted to the
constructors this file's code can produce or observe. -/
inductive DecoderError where
  | RlpIncorrectListLen
  | RlpIsTooShort
  | RlpExpectedToBeList
  | RlpExpectedToBeData
  | RlpInvalidIndirection
  | RlpIsTooBig
  | RlpInvalidLength
  | Custom (msg : String)
  deriving DecidableEq

/-- The repository's `FixedCodecError` (payloads dropped where the code
never inspects them). -/
inductive FixedCodecError where
  | DecodeBool
  | DecodeUint8
  | StringUTF8
  | rlpFailure (e : DecoderError)
  deriving DecidableEq

/-- The repository's `ProtocolResult`, with the error specialised to the
fixed-codec errors this file produces. -/
abbrev ProtocolResult (α : Type) := Except FixedCodecError α

/-- Byte class of a UTF-8 leading byte: `some (k, lo, hi)` means `k`
continuation bytes follow, the first in `lo..hi` and the rest in
`128..191`; `none` is an invalid leading byte. -/
def utf8Class (b : Nat) : Option (Nat × Nat × Nat) :=
  if b ≤ 127 then some (0, 0, 0)
  else if 194 ≤ b ∧ b ≤ 223 then some (1, 128, 191)
  else if b = 224 then some (2, 160, 191)
  else if 225 ≤ b ∧ b ≤ 236 then some (2, 128, 191)
  else if b = 237 then some (2, 128, 159)
  else if 238 ≤ b ∧ b ≤ 239 then some (2, 128, 191)
  else if b = 240 then some (3, 144, 191)
  else if 241 ≤ b ∧ b ≤ 243 then some (3, 128, 191)
  else if b = 244 then some (3, 128, 143)
  else none

/-- State machine of UTF-8 validation: `k` pending continuation bytes, the
next one constrained to `lo..hi` (later ones to `128..191`). -/
def utf8Go : Nat → Nat → Nat → List Nat → Bool
  | 0, _, _, [] => true
  | 0, _, _, b :: rest =>
    match utf8Class b with
    | none => false
    | some (k, lo, hi) => utf8Go k lo hi rest
  | _ + 1, _, _, [] => false
  | k + 1, lo, hi, c :: rest =>
    if lo ≤ c ∧ c ≤ hi then utf8Go k 128 191 rest else false

/-- Rust `std`'s UTF-8 validation over a byte list (the check behind
`String::from_utf8`): each leading byte's class determines the number and
ranges of its continuation bytes. -/
def validUtf8 (l : List Nat) : Bool :=
  utf8Go 0 0 0 l

/-- A Rust `String`: its UTF-8 byte content (two Rust strings are equal
exactly when their byte contents are). -/
def RString := {l : Bytes // validUtf8 l = true}

instance : DecidableEq RString :=
  inferInstanceAs (DecidableEq {l : Bytes // validUtf8 l = true})

/-- Source `impl FixedCodec for bool`, `encode_fixed`. -/
def Bool.encode_fixed (b : Bool) : ProtocolResult Bytes :=
  .ok (if b then [1] else [0])

/-- Source `impl FixedCodec for bool`, `decode_fixed`: first byte `0` is
false, `1` is true, anything else (or no byte) is `DecodeBool`. -/
def Bool.decode_fixed (bytes : Bytes) : ProtocolResult Bool :=
  match bytes.head? with
  | none => .error .DecodeBool
  | some 0 => .ok false
  | some 1 => .ok true
  | some _ => .error .DecodeBool

/-- Source `impl FixedCodec for u8`, `encode_fixed`. -/
def U8.encode_fixed (v : Nat) : ProtocolResult Bytes :=
  .ok [v]

/-- Source `impl FixedCodec for u8`, `decode_fixed`. -/
def U8.decode_fixed (bytes : Bytes) : ProtocolResult Nat :=
  match bytes.head? with
  | none => .error .DecodeUint8
  | some u => .ok u

/-- byteorder `LittleEndian::write_u32`: the four little-endian bytes. -/
def leBytes4 (n : Nat) : Bytes :=
  [n % 256, n / 256 % 256, n / 65536 % 256, n / 16777216 % 256]

/-- byteorder `LittleEndian::write_u64`: the eight little-endian bytes. -/
def leBytes8 (n : Nat) : Bytes :=
  [n % 256, n / 256 % 256, n / 65536 % 256, n / 16777216 % 256,
   n / 4294967296 % 256, n / 1099511627776 % 256,
   n / 281474976710656 % 256, n / 72057594037927936 % 256]

/-- byteorder `LittleEndian::read_u32`: reads the 4-byte little-endian
prefix; `none` models the crate's documented panic when fewer than four
bytes are available. -/
def read_u32 : Bytes → Option Nat
  | b0 :: b1 :: b2 :: b3 :: _ =>
    some (b0 + 256 * b1 + 65536 * b2 + 16777216 * b3)
  | _ => none

/-- byteorder `LittleEndian::read_u64`; `none` models the panic on fewer
than eight bytes. -/
def read_u64 : Bytes → Option Nat
  | b0 :: b1 :: b2 :: b3 :: b4 :: b5 :: b6 :: b7 :: _ =>
    some (b0 + 256 * b1 + 65536 * b2 + 16777216 * b3 +
      4294967296 * b4 + 1099511627776 * b5 +
      281474976710656 * b6 + 72057594037927936 * b7)
  | _ => none

/-- Source `impl FixedCodec for u32`, `encode_fixed`. -/
def U32.encode_fixed (v : Nat) : ProtocolResult Bytes :=
  .ok (leBytes4 v)

/-- Source `impl FixedCodec for u32`, `decode_fixed`: wraps the raw read in
`Ok` with no error branch; the read's panic (`none`) propagates. -/
def U32.decode_fixed (bytes : Bytes) : Option (ProtocolResult Nat) :=
  (read_u32 bytes).map .ok

/-- Source `impl FixedCodec for u64`, `encode_fixed`. -/
def U64.encode_fixed (v : Nat) : ProtocolResult Bytes :=
  .ok (leBytes8 v)

/-- Source `impl FixedCodec for u64`, `decode_fixed`. -/
def U64.decode_fixed (bytes : Bytes) : Option (ProtocolResult Nat) :=
  (read_u64 bytes).map .ok

/-- Source `impl FixedCodec for String`, `encode_fixed`: the string's UTF-8
bytes. -/
def RString.encode_fixed (s : RString) : ProtocolResult Bytes :=
  .ok s.val

/-- Source `impl FixedCodec for String`, `decode_fixed`:
`String::from_utf8`, surfacing invalid UTF-8 as `StringUTF8`. -/
def RString.decode_fixed (bytes : Bytes) : ProtocolResult RString :=
  if h : validUtf8 bytes = true then .ok ⟨bytes, h⟩ else .error .StringUTF8

/-- Source `impl FixedCodec for Bytes`, `encode_fixed` (identity). -/
def BytesCodec.encode_fixed (b : Bytes) : ProtocolResult Bytes :=
  .ok b

/-- Source `impl FixedCodec for Bytes`, `decode_fixed` (identity). -/
def BytesCodec.decode_fixed (b : Bytes) : ProtocolResult Bytes :=
  .ok b

/-- An RLP value as the external `rlp` crate's reader exposes it: a byte
string or a list of RLP values. -/
inductive RlpItem where
  | str (data : Bytes)
  | list (items : List RlpItem)

/-- rlp crate `Rlp::at`: the `i`-th element of a list, `RlpExpectedToBeList`
on a data item, `RlpIsTooShort` past the end. -/
def rlpAt (r : RlpItem) (i : Nat) : Except DecoderError RlpItem :=
  match r with
  | .str _ => .error .RlpExpectedToBeList
  | .list items =>
    match items[i]? with
    | some x => .ok x
    | none => .error .RlpIsTooShort

/-- rlp crate `Rlp::is_list`. -/
def rlpIsList : RlpItem → Bool
  | .str _ => false
  | .list _ => true

/-- rlp crate `Rlp::size`: the payload length of a data item and `0` for a
list. -/
def rlpSize : RlpItem → Nat
  | .str d => d.length
  | .list _ => 0

/-- rlp crate `Rlp::data`: the bytes of a data item,
`RlpExpectedToBeData` on a list. -/
def rlpData : RlpItem → Except DecoderError Bytes
  | .str d => .ok d
  | .list _ => .error .RlpExpectedToBeData

/-- Minimal big-endian byte representation of a natural number (the rlp
crate's integer value encoding; `0` is the empty string). -/
def beBytes (n : Nat) : Bytes :=
  if h : n = 0 then [] else beBytes (n / 256) ++ [n % 256]
  termination_by n
  decreasing_by exact Nat.div_lt_self (Nat.pos_of_ne_zero h) (by norm_num)

/-- Big-endian value of a byte string. -/
def beVal (l : Bytes) : Nat :=
  l.foldl (fun acc b => acc * 256 + b) 0

/-- rlp crate `Encodable` for unsigned integers: the minimal big-endian
byte string. -/
def encodeUint (n : Nat) : RlpItem :=
  .str (beBytes n)

/-- rlp crate `Decodable` for an unsigned integer of byte width `maxLen`
(`as_val`): rejects a leading zero byte (`RlpInvalidIndirection`) and an
over-long string (`RlpIsTooBig`); a list is `RlpExpectedToBeData`. -/
def decodeUint (maxLen : Nat) : RlpItem → Except DecoderError Nat
  | .str d =>
    if d.head? = some 0 then .error .RlpInvalidIndirection
    else if d.length ≤ maxLen then .ok (beVal d)
    else .error .RlpIsTooBig
  | .list _ => .error .RlpExpectedToBeData

/-- rlp crate `Encodable for String`: the string's UTF-8 bytes as a data
item. -/
def encodeRStr (s : RString) : RlpItem :=
  .str s.val

/-- rlp crate `Decodable for String` (`as_val`): UTF-8 validation of a data
item's bytes; a list is `RlpExpectedToBeData`. -/
def decodeRStr : RlpItem → Except DecoderError RString
  | .str d =>
    if h : validUtf8 d = true then .ok ⟨d, h⟩ else .error .RlpInvalidIndirection
  | .list _ => .error .RlpExpectedToBeData

/-- Whether a byte is an ASCII hexadecimal digit (`0-9`, `a-f`, `A-F`). -/
def isHexDigitByte (b : Nat) : Bool :=
  decide ((48 ≤ b ∧ b ≤ 57) ∨ (97 ≤ b ∧ b ≤ 102) ∨ (65 ≤ b ∧ b ≤ 70))

/-- Modelled from the spec: the type `Hex` of `crate::types` is not under
`src/`.  Per the spec it is a textual hex string with a leading `0x`,
exposing the trimmed string and constructible from a `0x`-prefixed string;
the value is carried here as the trimmed hex-digit bytes. -/
def Hex := {l : Bytes // l.all isHexDigitByte = true}

instance : DecidableEq Hex :=
  inferInstanceAs (DecidableEq {l : Bytes // l.all isHexDigitByte = true})

/-- Modelled from the spec: `Hex::as_string_trim0x`, the string form with
the `0x` stripped (as UTF-8 bytes). -/
def Hex.as_string_trim0x (h : Hex) : Bytes :=
  h.val

/-- Modelled from the spec: `Hex::as_string`, the full `0x`-prefixed string
(`0x30 0x78` are the bytes of `"0x"`). -/
def Hex.as_string (h : Hex) : Bytes :=
  48 :: 120 :: h.val

/-- Modelled from the spec: `Hex::from_string` constructs a `Hex` from a
`0x`-prefixed hex string and fails otherwise. -/
def Hex.from_string (s : Bytes) : Except Unit Hex :=
  match s with
  | 48 :: 120 :: body =>
    if h : body.all isHexDigitByte = true then .ok ⟨body, h⟩ else .error ()
  | _ => .error ()

/-- Source `impl rlp::Encodable for Hex`: a 1-element list holding the
trimmed string. -/
def Hex.rlp_append (h : Hex) : RlpItem :=
  .list [.str (Hex.as_string_trim0x h)]

/-- Source `impl rlp::Decodable for Hex`: element 0 as a string, `"0x"`
prepended, reconstruction failure mapped to a `Custom` error. -/
def Hex.decode (r : RlpItem) : Except DecoderError Hex := do
  let i0 ← rlpAt r 0
  let s ← decodeRStr i0
  match Hex.from_string (48 :: 120 :: s.val) with
  | .ok h => .ok h
  | .error _ => .error (.Custom "decode hex from string error")

/-- Modelled from the spec: the type `Hash` of `crate::types` is not under
`src/`; per the spec it is an opaque 32-byte identifier. -/
def Hash := {l : Bytes // l.length = 32}

instance : DecidableEq Hash :=
  inferInstanceAs (DecidableEq {l : Bytes // l.length = 32})

/-- Modelled from the spec: `Hash::from_bytes`, failing on a wrong-length
input. -/
def Hash.from_bytes (b : Bytes) : Except Unit Hash :=
  if h : b.length = 32 then .ok ⟨b, h⟩ else .error ()

/-- Modelled from the spec: `Hash::as_bytes`. -/
def Hash.as_bytes (x : Hash) : Bytes :=
  x.val

/-- Source `impl rlp::Encodable for Hash`: a 1-element list holding the raw
bytes. -/
def Hash.rlp_append (x : Hash) : RlpItem :=
  .list [.str (Hash.as_bytes x)]

/-- Source `impl rlp::Decodable for Hash`: element 0 as a byte slice,
`Hash::from_bytes`, failure mapped to `RlpInvalidLength`. -/
def Hash.decode (r : RlpItem) : Except DecoderError Hash := do
  let i0 ← rlpAt r 0
  let d ← rlpData i0
  match Hash.from_bytes d with
  | .ok x => .ok x
  | .error _ => .error .RlpInvalidLength

/-- Modelled from the spec: the type `Address` of `crate::types` is not
under `src/`; an opaque account identifier carrying bytes, constructible
from bytes with a length check symmetric to `Hash`'s (the spec's seed case
uses a 20-byte address). -/
def Address := {l : Bytes // l.length = 20}

instance : DecidableEq Address :=
  inferInstanceAs (DecidableEq {l : Bytes // l.length = 20})

/-- Modelled from the spec: `Address::from_bytes`. -/
def Address.from_bytes (b : Bytes) : Except Unit Address :=
  if h : b.length = 20 then .ok ⟨b, h⟩ else .error ()

/-- Modelled from the spec: `Address::as_bytes`. -/
def Address.as_bytes (x : Address) : Bytes :=
  x.val

/-- Source `impl rlp::Encodable for Address`: a 1-element list holding the
raw bytes. -/
def Address.rlp_append (x : Address) : RlpItem :=
  .list [.str (Address.as_bytes x)]

/-- Source `impl rlp::Decodable for Address`: element 0 as a byte slice,
`Address::from_bytes`, failure mapped to `RlpInvalidLength`. -/
def Address.decode (r : RlpItem) : Except DecoderError Address := do
  let i0 ← rlpAt r 0
  let d ← rlpData i0
  match Address.from_bytes d with
  | .ok x => .ok x
  | .error _ => .error .RlpInvalidLength

/-- The `ValidatorExtend` record (its definition lives in `crate::types`,
outside `src/`; the field types follow the spec's table: a recursively
RLP-encoded bytes-carrying `bls_pub_key` — the repository's `Hex` — an
`Address`, and two `u32`-ranged weights). -/
structure ValidatorExtend where
  bls_pub_key : Hex
  address : Address
  propose_weight : Nat
  vote_weight : Nat
  deriving DecidableEq

/-- Source `impl rlp::Encodable for ValidatorExtend`: a 4-element list,
`bls_pub_key` and `address` appended with their own RLP encoders. -/
def ValidatorExtend.rlp_append (v : ValidatorExtend) : RlpItem :=
  .list [Hex.rlp_append v.bls_pub_key, Address.rlp_append v.address,
    encodeUint v.propose_weight, encodeUint v.vote_weight]

/-- Source `impl rlp::Decodable for ValidatorExtend`: the guard is the
source's literal condition `!r.is_list() && r.size() != 4`; fields 0 and 1
are decoded by running the field type's RLP decoder on the raw element
(`rlp::decode(r.at(i)?.as_raw())`), fields 2 and 3 with `as_val` at `u32`
width. -/
def ValidatorExtend.decode (r : RlpItem) : Except DecoderError ValidatorExtend :=
  if rlpIsList r = false ∧ rlpSize r ≠ 4 then .error .RlpIncorrectListLen
  else do
    let i0 ← rlpAt r 0
    let bls_pub_key ← Hex.decode i0
    let i1 ← rlpAt r 1
    let address ← Address.decode i1
    let i2 ← rlpAt r 2
    let propose_weight ← decodeUint 4 i2
    let i3 ← rlpAt r 3
    let vote_weight ← decodeUint 4 i3
    .ok ⟨bls_pub_key, address, propose_weight, vote_weight⟩

/-- The `Metadata` record, fields ordered as the spec's table (the struct
definition lives in `crate::types`, outside `src/`). -/
structure Metadata where
  chain_id : Hash
  common_ref : Hex
  timeout_gap : Nat
  cycles_limit : Nat
  cycles_price : Nat
  interval : Nat
  verifier_list : List ValidatorExtend
  propose_ratio : Nat
  prevote_ratio : Nat
  precommit_ratio : Nat
  brake_ratio : Nat
  tx_num_limit : Nat
  max_tx_size : Nat
  deriving DecidableEq

/-- Source `impl rlp::Encodable for Metadata`: a 13-element list in field
order; `verifier_list` is appended with `append_list` as a nested
homogeneous list. -/
def Metadata.rlp_append (m : Metadata) : RlpItem :=
  .list [Hash.rlp_append m.chain_id, Hex.rlp_append m.common_ref,
    encodeUint m.timeout_gap, encodeUint m.cycles_limit,
    encodeUint m.cycles_price, encodeUint m.interval,
    .list (m.verifier_list.map ValidatorExtend.rlp_append),
    encodeUint m.propose_ratio, encodeUint m.prevote_ratio,
    encodeUint m.precommit_ratio, encodeUint m.brake_ratio,
    encodeUint m.tx_num_limit, encodeUint m.max_tx_size]

/-- Element-wise `ValidatorExtend` decoding of a list of RLP items (the
element loop behind the rlp crate's `as_list`). -/
def decodeVEList : List RlpItem → Except DecoderError (List ValidatorExtend)
  | [] => .ok []
  | x :: xs => do
    let v ← ValidatorExtend.decode x
    let vs ← decodeVEList xs
    .ok (v :: vs)

/-- rlp crate `Rlp::as_list::<ValidatorExtend>`: iterates the elements of a
list item (the iterator of a data item yields nothing, so a data item gives
an empty list). -/
def rlpAsVEList : RlpItem → Except DecoderError (List ValidatorExtend)
  | .str _ => .ok []
  | .list items => decodeVEList items

/-- Source `impl rlp::Decodable for Metadata`: positional reads at indices
0..12, each with the field type's decoder. -/
def Metadata.decode (r : RlpItem) : Except DecoderError Metadata := do
  let i0 ← rlpAt r 0
  let chain_id ← Hash.decode i0
  let i1 ← rlpAt r 1
  let common_ref ← Hex.decode i1
  let i2 ← rlpAt r 2
  let timeout_gap ← decodeUint 8 i2
  let i3 ← rlpAt r 3
  let cycles_limit ← decodeUint 8 i3
  let i4 ← rlpAt r 4
  let cycles_price ← decodeUint 8 i4
  let i5 ← rlpAt r 5
  let interval ← decodeUint 8 i5
  let i6 ← rlpAt r 6
  let verifier_list ← rlpAsVEList i6
  let i7 ← rlpAt r 7
  let propose_ratio ← decodeUint 8 i7
  let i8 ← rlpAt r 8
  let prevote_ratio ← decodeUint 8 i8
  let i9 ← rlpAt r 9
  let precommit_ratio ← decodeUint 8 i9
  let i10 ← rlpAt r 10
  let brake_ratio ← decodeUint 8 i10
  let i11 ← rlpAt r 11
  let tx_num_limit ← decodeUint 8 i11
  let i12 ← rlpAt r 12
  let max_tx_size ← decodeUint 8 i12
  .ok ⟨chain_id, common_ref, timeout_gap, cycles_limit, cycles_price,
    interval, verifier_list, propose_ratio, prevote_ratio, precommit_ratio,
    brake_ratio, tx_num_limit, max_tx_size⟩

/-- Modelled from the spec: the macro `impl_default_fixed_codec_for!` (its
definition is not under `src/`) implements `FixedCodec` for `Hash`,
`Address`, `Hex` and `Metadata` "by delegating to the RLP encoding of the
same value (the Fixed form of a composite is its RLP form)". -/
def Hash.encode_fixed (x : Hash) : ProtocolResult RlpItem :=
  .ok (Hash.rlp_append x)

/-- Modelled from the spec: composite `decode_fixed` parses the RLP form
with the type's RLP decoder, wrapping a decoder error. -/
def Hash.decode_fixed (r : RlpItem) : ProtocolResult Hash :=
  match Hash.decode r with
  | .ok x => .ok x
  | .error e => .error (.rlpFailure e)

/-- Modelled from the spec: `FixedCodec for Address` by RLP delegation. -/
def Address.encode_fixed (x : Address) : ProtocolResult RlpItem :=
  .ok (Address.rlp_append x)

/-- Modelled from the spec: `FixedCodec for Address`, decode side. -/
def Address.decode_fixed (r : RlpItem) : ProtocolResult Address :=
  match Address.decode r with
  | .ok x => .ok x
  | .error e => .error (.rlpFailure e)

/-- Modelled from the spec: `FixedCodec for Hex` by RLP delegation. -/
def Hex.encode_fixed (x : Hex) : ProtocolResult RlpItem :=
  .ok (Hex.rlp_append x)

/-- Modelled from the spec: `FixedCodec for Hex`, decode side. -/
def Hex.decode_fixed (r : RlpItem) : ProtocolResult Hex :=
  match Hex.decode r with
  | .ok x => .ok x
  | .error e => .error (.rlpFailure e)

/-- Modelled from the spec: `FixedCodec for Metadata` by RLP delegation. -/
def Metadata.encode_fixed (m : Metadata) : ProtocolResult RlpItem :=
  .ok (Metadata.rlp_append m)

/-- Modelled from the spec: `FixedCodec for Metadata`, decode side. -/
def Metadata.decode_fixed (r : RlpItem) : ProtocolResult Metadata :=
  match Metadata.decode r with
  | .ok m => .ok m
  | .error e => .error (.rlpFailure e)

/-- Well-formedness of a `ValidatorExtend` value: the weights are in `u32`
range (intrinsic to the Rust field types). -/
def ValidatorExtend.Wf (v : ValidatorExtend) : Prop :=
  v.propose_weight < 2 ^ 32 ∧ v.vote_weight < 2 ^ 32

/-- Well-formedness of a `Metadata` value: the `u64` fields are in range
and every listed validator is well formed. -/
def Metadata.Wf (m : Metadata) : Prop :=
  m.timeout_gap < 2 ^ 64 ∧ m.cycles_limit < 2 ^ 64 ∧ m.cycles_price < 2 ^ 64 ∧
    m.interval < 2 ^ 64 ∧ m.propose_ratio < 2 ^ 64 ∧ m.prevote_ratio < 2 ^ 64 ∧
    m.precommit_ratio < 2 ^ 64 ∧ m.brake_ratio < 2 ^ 64 ∧
    m.tx_num_limit < 2 ^ 64 ∧ m.max_tx_size < 2 ^ 64 ∧
    ∀ v ∈ m.verifier_list, v.Wf

instance (v : ValidatorExtend) : Decidable v.Wf :=
  inferInstanceAs (Decidable (v.propose_weight < 2 ^ 32 ∧ v.vote_weight < 2 ^ 32))

instance (m : Metadata) : Decidable m.Wf :=
  inferInstanceAs (Decidable (m.timeout_gap < 2 ^ 64 ∧ m.cycles_limit < 2 ^ 64 ∧
    m.cycles_price < 2 ^ 64 ∧ m.interval < 2 ^ 64 ∧ m.propose_ratio < 2 ^ 64 ∧
    m.prevote_ratio < 2 ^ 64 ∧ m.precommit_ratio < 2 ^ 64 ∧ m.brake_ratio < 2 ^ 64 ∧
    m.tx_num_limit < 2 ^ 64 ∧ m.max_tx_size < 2 ^ 64 ∧
    ∀ v ∈ m.verifier_list, v.Wf))

/-- Little-endian value of a byte list (the number the bytes denote least
significant first); used to state the layout claims independently of the
encoder's own formula. -/
def leVal (l : Bytes) : Nat :=
  l.foldr (fun b acc => b + 256 * acc) 0

/-- Concrete sample `Hex` value: the string `"deadbeef"` (bytes of its
trimmed form). -/
def hexEx : Hex :=
  ⟨[100, 101, 97, 100, 98, 101, 101, 102], by decide⟩

/-- Concrete sample 20-byte `Address`. -/
def addrEx : Address :=
  ⟨List.replicate 20 17, by decide⟩

/-- Concrete sample 32-byte `Hash`. -/
def hashEx : Hash :=
  ⟨List.replicate 32 7, by decide⟩

/-- Concrete sample `RString`: the string `"abc"`. -/
def strEx : RString :=
  ⟨[97, 98, 99], by decide⟩

/-- Concrete sample validator (the spec's seed case: weights 10 and 20). -/
def veEx : ValidatorExtend :=
  ⟨hexEx, addrEx, 10, 20⟩

/-- Concrete sample metadata value with a 1-validator list. -/
def mEx : Metadata :=
  ⟨hashEx, hexEx, 100, 9999, 1, 3, [veEx], 15, 10, 10, 7, 20000, 1024⟩

/-- The 13 RLP elements of a valid encoding of `mEx`, the integer elements
written as literal minimal big-endian byte strings (used to build oversize
and truncated metadata inputs). -/
def mExItems : List RlpItem :=
  [Hash.rlp_append hashEx, Hex.rlp_append hexEx, .str [100], .str [39, 15],
   .str [1], .str [3],
   .list [.list [Hex.rlp_append hexEx, Address.rlp_append addrEx,
     .str [10], .str [20]]],
   .str [15], .str [10], .str [10], .str [7], .str [78, 32], .str [4, 0]]

theorem exc_ok_bind {ε α β : Type} (a : α) (f : α → Except ε β) :
    (Except.ok a : Except ε α) >>= f = f a := rfl

theorem exc_error_bind {ε α β : Type} (e : ε) (f : α → Except ε β) :
    (Except.error e : Except ε α) >>= f = Except.error e := rfl

theorem exc_bind_ok {ε α β : Type} {x : Except ε α} {f : α → Except ε β} {b : β}
    (h : x >>= f = .ok b) : ∃ a, x = .ok a ∧ f a = .ok b := by
  cases x with
  | error e => rw [exc_error_bind] at h; simp at h
  | ok a => exact ⟨a, rfl, by rw [exc_ok_bind] at h; exact h⟩

theorem beVal_append (l : Bytes) (b : Nat) :
    beVal (l ++ [b]) = beVal l * 256 + b := by
  simp [beVal, List.foldl_append]

theorem beVal_beBytes (n : Nat) : beVal (beBytes n) = n := by
  induction n using Nat.strong_induction_on with
  | _ n ih =>
    rw [beBytes]
    split
    · rename_i h; simp [beVal, h]
    · rename_i h
      rw [beVal_append, ih (n / 256) (Nat.div_lt_self (Nat.pos_of_ne_zero h) (by norm_num))]
      omega

theorem beBytes_eq_nil_iff (n : Nat) : beBytes n = [] ↔ n = 0 := by
  constructor
  · intro h
    by_contra hn
    rw [beBytes, dif_neg hn] at h
    simp at h
  · intro h
    subst h
    rw [beBytes]
    simp

theorem beBytes_head?_ne_zero (n : Nat) : (beBytes n).head? ≠ some 0 := by
  induction n using Nat.strong_induction_on with
  | _ n ih =>
    rw [beBytes]
    split
    · simp
    · rename_i hn
      rcases hq : beBytes (n / 256) with _ | ⟨a, l⟩
      · have h2 : n / 256 = 0 := (beBytes_eq_nil_iff _).1 hq
        simp only [List.nil_append, List.head?_cons, ne_eq, Option.some.injEq]
        omega
      · have ha := ih (n / 256) (Nat.div_lt_self (Nat.pos_of_ne_zero hn) (by norm_num))
        rw [hq] at ha
        simp only [List.cons_append, List.head?_cons] at ha ⊢
        exact ha

theorem beBytes_length_le (k : Nat) : ∀ n, n < 256 ^ k → (beBytes n).length ≤ k := by
  induction k with
  | zero =>
    intro n hn
    have : n = 0 := by simpa using Nat.lt_one_iff.mp (by simpa using hn)
    subst this
    rw [beBytes]
    simp
  | succ k ih =>
    intro n hn
    rw [beBytes]
    split
    · simp
    · rename_i h
      have hdiv : n / 256 < 256 ^ k := by
        rw [Nat.div_lt_iff_lt_mul (by norm_num)]
        calc n < 256 ^ (k + 1) := hn
          _ = 256 ^ k * 256 := by ring
      have := ih (n / 256) hdiv
      simp only [List.length_append, List.length_cons, List.length_nil]
      omega

theorem decodeUint_encodeUint (k n : Nat) (h : n < 256 ^ k) :
    decodeUint k (encodeUint n) = .ok n := by
  show (if (beBytes n).head? = some 0 then Except.error DecoderError.RlpInvalidIndirection
    else if (beBytes n).length ≤ k then Except.ok (beVal (beBytes n))
    else Except.error DecoderError.RlpIsTooBig) = .ok n
  rw [if_neg (beBytes_head?_ne_zero n), if_pos (beBytes_length_le k n h), beVal_beBytes]

theorem validUtf8_of_ascii (l : List Nat) (h : ∀ b ∈ l, b ≤ 127) :
    validUtf8 l = true := by
  induction l with
  | nil => rfl
  | cons b t ih =>
    have hb : b ≤ 127 := h b (by simp)
    show utf8Go 0 0 0 (b :: t) = true
    simp only [utf8Go, utf8Class, if_pos hb]
    exact ih fun x hx => h x (by simp [hx])

theorem isHexDigitByte_le (b : Nat) (h : isHexDigitByte b = true) : b ≤ 127 := by
  simp [isHexDigitByte] at h
  omega

theorem hexBody_validUtf8 (l : Bytes) (h : l.all isHexDigitByte = true) :
    validUtf8 l = true :=
  validUtf8_of_ascii l fun b hb => isHexDigitByte_le b (List.all_eq_true.mp h b hb)

theorem hex_roundtrip (h : Hex) : Hex.decode (Hex.rlp_append h) = .ok h := by
  obtain ⟨l, hl⟩ := h
  have hv : validUtf8 l = true := hexBody_validUtf8 l hl
  have hl2 : ∀ x ∈ l, isHexDigitByte x = true := List.all_eq_true.mp hl
  simp [Hex.decode, Hex.rlp_append, Hex.as_string_trim0x, rlpAt, decodeRStr,
    Hex.from_string, hv, hl, hl2, exc_ok_bind]
  rw [dif_pos hl2]

theorem hash_roundtrip (x : Hash) : Hash.decode (Hash.rlp_append x) = .ok x := by
  obtain ⟨l, hl⟩ := x
  simp [Hash.decode, Hash.rlp_append, Hash.as_bytes, rlpAt, rlpData,
    Hash.from_bytes, hl, exc_ok_bind]

theorem address_roundtrip (x : Address) :
    Address.decode (Address.rlp_append x) = .ok x := by
  obtain ⟨l, hl⟩ := x
  simp [Address.decode, Address.rlp_append, Address.as_bytes, rlpAt, rlpData,
    Address.from_bytes, hl, exc_ok_bind]

theorem validator_roundtrip (v : ValidatorExtend) (hw : v.Wf) :
    ValidatorExtend.decode (ValidatorExtend.rlp_append v) = .ok v := by
  obtain ⟨bls, addr, pw, vw⟩ := v
  obtain ⟨hpw, hvw⟩ := hw
  have h2 : decodeUint 4 (encodeUint pw) = .ok pw :=
    decodeUint_encodeUint 4 pw (lt_of_lt_of_eq hpw (by norm_num))
  have h3 : decodeUint 4 (encodeUint vw) = .ok vw :=
    decodeUint_encodeUint 4 vw (lt_of_lt_of_eq hvw (by norm_num))
  simp [ValidatorExtend.decode, ValidatorExtend.rlp_append, rlpIsList, rlpAt,
    hex_roundtrip, address_roundtrip, h2, h3, exc_ok_bind]

theorem velist_roundtrip (vl : List ValidatorExtend) (hw : ∀ v ∈ vl, v.Wf) :
    decodeVEList (vl.map ValidatorExtend.rlp_append) = .ok vl := by
  induction vl with
  | nil => rfl
  | cons v t ih =>
    simp only [List.map_cons, decodeVEList,
      validator_roundtrip v (hw v (by simp)), exc_ok_bind,
      ih fun x hx => hw x (by simp [hx])]

theorem metadata_roundtrip (m : Metadata) (hw : m.Wf) :
    Metadata.decode (Metadata.rlp_append m) = .ok m := by
  obtain ⟨cid, cref, tg, cl, cp, iv, vl, pr, pv, pc, br, tn, mx⟩ := m
  obtain ⟨h1, h2, h3, h4, h5, h6, h7, h8, h9, h10, hvl⟩ := hw
  have e := fun (n : Nat) (hn : n < 2 ^ 64) =>
    decodeUint_encodeUint 8 n (lt_of_lt_of_eq hn (by norm_num))
  simp [Metadata.decode, Metadata.rlp_append, rlpAt, rlpAsVEList,
    hash_roundtrip, hex_roundtrip, velist_roundtrip vl hvl,
    e tg h1, e cl h2, e cp h3, e iv h4, e pr h5, e pv h6, e pc h7,
    e br h8, e tn h9, e mx h10, exc_ok_bind]

theorem rlpAt_ok_lt {items : List RlpItem} {i : Nat} {x : RlpItem}
    (h : rlpAt (.list items) i = .ok x) : i < items.length := by
  simp only [rlpAt] at h
  split at h
  · rename_i heq
    exact (List.getElem?_eq_some.mp heq).1
  · simp at h

theorem metadata_decode_ok_length {items : List RlpItem} {m : Metadata}
    (h : Metadata.decode (.list items) = .ok m) : 13 ≤ items.length := by
  unfold Metadata.decode at h
  obtain ⟨i0, h0, h⟩ := exc_bind_ok h
  obtain ⟨c0, hc0, h⟩ := exc_bind_ok h
  obtain ⟨i1, h1, h⟩ := exc_bind_ok h
  obtain ⟨c1, hc1, h⟩ := exc_bind_ok h
  obtain ⟨i2, h2, h⟩ := exc_bind_ok h
  obtain ⟨c2, hc2, h⟩ := exc_bind_ok h
  obtain ⟨i3, h3, h⟩ := exc_bind_ok h
  obtain ⟨c3, hc3, h⟩ := exc_bind_ok h
  obtain ⟨i4, h4, h⟩ := exc_bind_ok h
  obtain ⟨c4, hc4, h⟩ := exc_bind_ok h
  obtain ⟨i5, h5, h⟩ := exc_bind_ok h
  obtain ⟨c5, hc5, h⟩ := exc_bind_ok h
  obtain ⟨i6, h6, h⟩ := exc_bind_ok h
  obtain ⟨c6, hc6, h⟩ := exc_bind_ok h
  obtain ⟨i7, h7, h⟩ := exc_bind_ok h
  obtain ⟨c7, hc7, h⟩ := exc_bind_ok h
  obtain ⟨i8, h8, h⟩ := exc_bind_ok h
  obtain ⟨c8, hc8, h⟩ := exc_bind_ok h
  obtain ⟨i9, h9, h⟩ := exc_bind_ok h
  obtain ⟨c9, hc9, h⟩ := exc_bind_ok h
  obtain ⟨i10, h10, h⟩ := exc_bind_ok h
  obtain ⟨c10, hc10, h⟩ := exc_bind_ok h
  obtain ⟨i11, h11, h⟩ := exc_bind_ok h
  obtain ⟨c11, hc11, h⟩ := exc_bind_ok h
  obtain ⟨i12, h12, h⟩ := exc_bind_ok h
  have := rlpAt_ok_lt h12
  omega

theorem rlpAt_append_left {items extra : List RlpItem} {k : Nat}
    (h : k < items.length) :
    rlpAt (.list (items ++ extra)) k = rlpAt (.list items) k := by
  simp only [rlpAt]
  rw [List.getElem?_append_left h]

theorem metadata_decode_append (items extra : List RlpItem)
    (h : 13 ≤ items.length) :
    Metadata.decode (.list (items ++ extra)) = Metadata.decode (.list items) := by
  have e : ∀ k, k < 13 → rlpAt (.list (items ++ extra)) k = rlpAt (.list items) k :=
    fun k hk => rlpAt_append_left (by omega)
  simp only [Metadata.decode, e 0 (by norm_num), e 1 (by norm_num),
    e 2 (by norm_num), e 3 (by norm_num), e 4 (by norm_num), e 5 (by norm_num),
    e 6 (by norm_num), e 7 (by norm_num), e 8 (by norm_num), e 9 (by norm_num),
    e 10 (by norm_num), e 11 (by norm_num), e 12 (by norm_num)]

/-- C1: round-trip law — every supported primitive value (bool, u8, u32,
u64, String, byte buffer) decodes back from its `encode_fixed` image to an
equal value, and every value of an RLP-adapted type (`Hex`, `Hash`,
`Address`, `ValidatorExtend`, `Metadata`) RLP-decodes back from its RLP
encoding at the same type. -/
theorem C1_roundtrip_law :
    (∀ b : Bool, ∃ bs, Bool.encode_fixed b = .ok bs ∧ Bool.decode_fixed bs = .ok b) ∧
    (∀ n : Nat, n < 2 ^ 8 →
      ∃ bs, U8.encode_fixed n = .ok bs ∧ U8.decode_fixed bs = .ok n) ∧
    (∀ n : Nat, n < 2 ^ 32 →
      ∃ bs, U32.encode_fixed n = .ok bs ∧ U32.decode_fixed bs = some (.ok n)) ∧
    (∀ n : Nat, n < 2 ^ 64 →
      ∃ bs, U64.encode_fixed n = .ok bs ∧ U64.decode_fixed bs = some (.ok n)) ∧
    (∀ s : RString, ∃ bs, RString.encode_fixed s = .ok bs ∧
      RString.decode_fixed bs = .ok s) ∧
    (∀ b : Bytes, ∃ bs, BytesCodec.encode_fixed b = .ok bs ∧
      BytesCodec.decode_fixed bs = .ok b) ∧
    (∀ h : Hex, Hex.decode (Hex.rlp_append h) = .ok h) ∧
    (∀ x : Hash, Hash.decode (Hash.rlp_append x) = .ok x) ∧
    (∀ x : Address, Address.decode (Address.rlp_append x) = .ok x) ∧
    (∀ v : ValidatorExtend, v.Wf →
      ValidatorExtend.decode (ValidatorExtend.rlp_append v) = .ok v) ∧
    (∀ m : Metadata, m.Wf → Metadata.decode (Metadata.rlp_append m) = .ok m) := by
  refine ⟨?_, ?_, ?_, ?_, ?_, fun b => ⟨b, rfl, rfl⟩, hex_roundtrip,
    hash_roundtrip, address_roundtrip, validator_roundtrip, metadata_roundtrip⟩
  · intro b
    cases b
    · exact ⟨[0], rfl, rfl⟩
    · exact ⟨[1], rfl, rfl⟩
  · intro n hn
    exact ⟨[n], rfl, rfl⟩
  · intro n hn
    refine ⟨leBytes4 n, rfl, ?_⟩
    have hv : n % 256 + 256 * (n / 256 % 256) + 65536 * (n / 65536 % 256) +
        16777216 * (n / 16777216 % 256) = n := by omega
    simp [U32.decode_fixed, read_u32, leBytes4, hv]
  · intro n hn
    refine ⟨leBytes8 n, rfl, ?_⟩
    have hv : n % 256 + 256 * (n / 256 % 256) + 65536 * (n / 65536 % 256) +
        16777216 * (n / 16777216 % 256) + 4294967296 * (n / 4294967296 % 256) +
        1099511627776 * (n / 1099511627776 % 256) +
        281474976710656 * (n / 281474976710656 % 256) +
        72057594037927936 * (n / 72057594037927936 % 256) = n := by omega
    simp [U64.decode_fixed, read_u64, leBytes8, hv]
  · intro s
    obtain ⟨l, hl⟩ := s
    exact ⟨l, rfl, by simp [RString.decode_fixed, hl]⟩

/-- C1 witness: the round trip evaluated at concrete inputs — the spec's
seed `u32` value, and concrete validator and metadata values. -/
theorem C1_roundtrip_law_witness :
    (∃ bs, U32.encode_fixed 305419896 = .ok bs ∧
      U32.decode_fixed bs = some (.ok 305419896)) ∧
    ValidatorExtend.decode (ValidatorExtend.rlp_append veEx) = .ok veEx ∧
    Metadata.decode (Metadata.rlp_append mEx) = .ok mEx :=
  ⟨C1_roundtrip_law.2.2.1 305419896 (by norm_num),
   C1_roundtrip_law.2.2.2.2.2.2.2.2.2.1 veEx (by decide),
   C1_roundtrip_law.2.2.2.2.2.2.2.2.2.2 mEx (by decide)⟩

/-- C2: evaluation at the failing inputs — `u32::decode_fixed` and
`u64::decode_fixed` wrap the byteorder read in `Ok` with no error branch,
so on inputs shorter than 4 (resp. 8) bytes the read's panic is reached
(`none`): no decode error is returned, contrary to the claim. -/
theorem C2_short_input_panics :
    U32.decode_fixed [] = none ∧ U32.decode_fixed [1, 2, 3] = none ∧
    U64.decode_fixed [] = none ∧ U64.decode_fixed [1, 2, 3, 4, 5, 6, 7] = none ∧
    (∀ b : Bytes, b.length < 4 → U32.decode_fixed b = none) ∧
    (∀ b : Bytes, b.length < 8 → U64.decode_fixed b = none) := by
  refine ⟨rfl, rfl, rfl, rfl, ?_, ?_⟩
  · intro b hb
    rcases b with _ | ⟨b0, _ | ⟨b1, _ | ⟨b2, _ | ⟨b3, rest⟩⟩⟩⟩ <;>
      first
        | rfl
        | (simp only [List.length_cons] at hb; omega)
  · intro b hb
    rcases b with _ | ⟨b0, _ | ⟨b1, _ | ⟨b2, _ | ⟨b3, _ | ⟨b4, _ | ⟨b5, _ |
      ⟨b6, _ | ⟨b7, rest⟩⟩⟩⟩⟩⟩⟩⟩ <;>
      first
        | rfl
        | (simp only [List.length_cons] at hb; omega)

/-- C2 witness: the general short-input clauses of the theorem applied at
the empty input. -/
theorem C2_short_input_panics_witness :
    U32.decode_fixed [] = none ∧ U64.decode_fixed [] = none :=
  ⟨C2_short_input_panics.2.2.2.2.1 [] (by norm_num),
   C2_short_input_panics.2.2.2.2.2 [] (by norm_num)⟩

/-- C3: the source guard `!r.is_list() && r.size() != 4` never rejects a
list of the wrong element count — a 5-element list decodes successfully
(the extra element is ignored) and a 3-element truncation of a valid
encoding fails with `RlpIsTooShort` from the out-of-range positional read,
not with `RlpIncorrectListLen`. -/
theorem C3_arity_guard_ineffective :
    ValidatorExtend.decode (.list [Hex.rlp_append hexEx,
      Address.rlp_append addrEx, .str [10], .str [20], .str [99]]) = .ok veEx ∧
    ValidatorExtend.decode (.list [Hex.rlp_append hexEx,
      Address.rlp_append addrEx, .str [10]]) = .error .RlpIsTooShort :=
  ⟨rfl, rfl⟩

/-- C4 counterexample: a 14-element list — a well-typed 13-element metadata
encoding with one extra element appended — decodes successfully, so the
code has no oversize arity check and the claim fails for lists of more than
13 elements. -/
theorem C4_oversize_list_decodes :
    Metadata.decode (.list (mExItems ++ [.str [5]])) = .ok mEx :=
  rfl

/-- C4 amended: a list of fewer than 13 elements always fails to decode
(its first failing positional read is an error, at the latest the
out-of-range read), while a list of more than 13 elements is not rejected:
elements past index 12 are ignored and the list decodes exactly as its
13-element prefix. -/
theorem C4_metadata_arity :
    (∀ items : List RlpItem, items.length < 13 →
      ∃ e, Metadata.decode (.list items) = .error e) ∧
    (∀ items extra : List RlpItem, 13 ≤ items.length →
      Metadata.decode (.list (items ++ extra)) = Metadata.decode (.list items)) := by
  constructor
  · intro items hlen
    cases hd : Metadata.decode (.list items) with
    | error e => exact ⟨e, rfl⟩
    | ok m => exact absurd (metadata_decode_ok_length hd) (by omega)
  · exact metadata_decode_append

/-- C4 witness: the amended theorem applied to a 3-element truncation of a
valid metadata encoding and to the 14-element oversize input. -/
theorem C4_metadata_arity_witness :
    (∃ e, Metadata.decode (.list (mExItems.take 3)) = .error e) ∧
    Metadata.decode (.list (mExItems ++ [.str [5]])) =
      Metadata.decode (.list mExItems) :=
  ⟨C4_metadata_arity.1 (mExItems.take 3) (by decide),
   C4_metadata_arity.2 mExItems [.str [5]] (by decide)⟩

/-- C5: for the composite domain types `Hash`, `Address`, `Hex` and
`Metadata` the Fixed form coincides with the RLP form — `encode_fixed`
yields exactly the value's RLP encoding, and `decode_fixed` parses that RLP
form back to the value. -/
theorem C5_fixed_form_is_rlp_form :
    (∀ x : Hash, Hash.encode_fixed x = .ok (Hash.rlp_append x) ∧
      Hash.decode_fixed (Hash.rlp_append x) = .ok x) ∧
    (∀ x : Address, Address.encode_fixed x = .ok (Address.rlp_append x) ∧
      Address.decode_fixed (Address.rlp_append x) = .ok x) ∧
    (∀ h : Hex, Hex.encode_fixed h = .ok (Hex.rlp_append h) ∧
      Hex.decode_fixed (Hex.rlp_append h) = .ok h) ∧
    (∀ m : Metadata, m.Wf → Metadata.encode_fixed m = .ok (Metadata.rlp_append m) ∧
      Metadata.decode_fixed (Metadata.rlp_append m) = .ok m) := by
  refine ⟨fun x => ⟨rfl, ?_⟩, fun x => ⟨rfl, ?_⟩, fun h => ⟨rfl, ?_⟩,
    fun m hm => ⟨rfl, ?_⟩⟩
  · simp [Hash.decode_fixed, hash_roundtrip]
  · simp [Address.decode_fixed, address_roundtrip]
  · simp [Hex.decode_fixed, hex_roundtrip]
  · simp [Metadata.decode_fixed, metadata_roundtrip m hm]

/-- C5 witness: the delegation evaluated at the concrete hash and metadata
samples. -/
theorem C5_fixed_form_witness :
    (Hash.encode_fixed hashEx = .ok (Hash.rlp_append hashEx) ∧
      Hash.decode_fixed (Hash.rlp_append hashEx) = .ok hashEx) ∧
    (Metadata.encode_fixed mEx = .ok (Metadata.rlp_append mEx) ∧
      Metadata.decode_fixed (Metadata.rlp_append mEx) = .ok mEx) :=
  ⟨C5_fixed_form_is_rlp_form.1 hashEx,
   C5_fixed_form_is_rlp_form.2.2.2 mEx (by decide)⟩

/-- C6: the boolean codec contract — `encode_fixed` emits exactly one byte,
`0x00` for false and `0x01` for true; `decode_fixed` fails with
`DecodeBool` on empty input, maps a first byte `0x00` to false and `0x01`
to true ignoring trailing bytes, and fails with `DecodeBool` on every other
first byte `0x02..=0xFF`. -/
theorem C6_bool_contract :
    Bool.encode_fixed false = .ok [0] ∧
    Bool.encode_fixed true = .ok [1] ∧
    Bool.decode_fixed [] = .error .DecodeBool ∧
    (∀ rest : Bytes, Bool.decode_fixed (0 :: rest) = .ok false) ∧
    (∀ rest : Bytes, Bool.decode_fixed (1 :: rest) = .ok true) ∧
    (∀ c : Nat, ∀ rest : Bytes, 2 ≤ c → c ≤ 255 →
      Bool.decode_fixed (c :: rest) = .error .DecodeBool) := by
  refine ⟨rfl, rfl, rfl, fun rest => rfl, fun rest => rfl, ?_⟩
  intro c rest h2 h255
  obtain ⟨k, rfl⟩ : ∃ k, c = k + 2 := ⟨c - 2, by omega⟩
  rfl

/-- C6 witness: the out-of-range clause applied at first byte `0x02`, and
the trailing-byte clauses at one-byte tails. -/
theorem C6_bool_contract_witness :
    Bool.decode_fixed [2] = .error .DecodeBool ∧
    Bool.decode_fixed [0, 9] = .ok false ∧
    Bool.decode_fixed [1, 9] = .ok true :=
  ⟨C6_bool_contract.2.2.2.2.2 2 [] (by norm_num) (by norm_num),
   C6_bool_contract.2.2.2.1 [9], C6_bool_contract.2.2.2.2.1 [9]⟩

/-- C7: fixed integer layout — `u32::encode_fixed` produces exactly four
bytes, little-endian (interpreting them least-significant-first recovers
the value, and the spec's boundary examples hold), and `u64::encode_fixed`
produces exactly eight bytes little-endian. -/
theorem C7_little_endian_layout :
    (∀ n : Nat, n < 2 ^ 32 → U32.encode_fixed n = .ok (leBytes4 n) ∧
      (leBytes4 n).length = 4 ∧ leVal (leBytes4 n) = n ∧
      ∀ b ∈ leBytes4 n, b < 256) ∧
    (∀ n : Nat, n < 2 ^ 64 → U64.encode_fixed n = .ok (leBytes8 n) ∧
      (leBytes8 n).length = 8 ∧ leVal (leBytes8 n) = n ∧
      ∀ b ∈ leBytes8 n, b < 256) ∧
    U32.encode_fixed 305419896 = .ok [120, 86, 52, 18] ∧
    U32.encode_fixed 0 = .ok [0, 0, 0, 0] ∧
    U32.encode_fixed 4294967295 = .ok [255, 255, 255, 255] ∧
    U64.encode_fixed 0 = .ok [0, 0, 0, 0, 0, 0, 0, 0] ∧
    U64.encode_fixed 18446744073709551615 =
      .ok [255, 255, 255, 255, 255, 255, 255, 255] := by
  refine ⟨?_, ?_, rfl, rfl, rfl, rfl, rfl⟩
  · intro n hn
    refine ⟨rfl, rfl, ?_, ?_⟩
    · simp [leVal, leBytes4]
      omega
    · intro b hb
      simp [leBytes4] at hb
      omega
  · intro n hn
    refine ⟨rfl, rfl, ?_, ?_⟩
    · simp [leVal, leBytes8]
      omega
    · intro b hb
      simp [leBytes8] at hb
      omega

/-- C7 witness: the general layout clause applied at the spec's seed value
`0x12345678`. -/
theorem C7_little_endian_layout_witness :
    U32.encode_fixed 305419896 = .ok (leBytes4 305419896) ∧
    (leBytes4 305419896).length = 4 ∧ leVal (leBytes4 305419896) = 305419896 ∧
    ∀ b ∈ leBytes4 305419896, b < 256 :=
  C7_little_endian_layout.1 305419896 (by norm_num)

/-- C8: `Hex` RLP shape — the encoding is a 1-element list holding the hex
string with the `0x` stripped; the decoder reads element 0 as a string,
prepends `0x` and reconstructs the value, so the round trip restores the
leading `0x`; a reconstruction failure is reported as the generic `Custom`
decode error. -/
theorem C8_hex_rlp_shape :
    (∀ h : Hex, Hex.rlp_append h = .list [.str (Hex.as_string_trim0x h)]) ∧
    (∀ h : Hex, Hex.decode (Hex.rlp_append h) = .ok h) ∧
    (∀ h : Hex, Hex.as_string h = 48 :: 120 :: Hex.as_string_trim0x h) ∧
    (∀ d : Bytes, validUtf8 d = true → d.all isHexDigitByte = false →
      Hex.decode (.list [.str d]) =
        .error (.Custom "decode hex from string error")) := by
  refine ⟨fun h => rfl, hex_roundtrip, fun h => rfl, ?_⟩
  intro d hv hf
  have hf2 : ¬ List.all d isHexDigitByte = true := by
    simp [hf]
  simp only [Hex.decode, rlpAt, List.getElem?_cons_zero, exc_ok_bind,
    decodeRStr, dif_pos hv, Hex.from_string]
  rw [dif_neg hf2]

/-- C8 witness: the failure clause at the non-hex ASCII string `"g"` (byte
`103`), and the round trip at the concrete sample. -/
theorem C8_hex_rlp_shape_witness :
    Hex.decode (.list [.str [103]]) =
      .error (.Custom "decode hex from string error") ∧
    Hex.decode (Hex.rlp_append hexEx) = .ok hexEx :=
  ⟨C8_hex_rlp_shape.2.2.2 [103] (by decide) (by decide),
   C8_hex_rlp_shape.2.1 hexEx⟩

/-- C9: under the length precondition no error branch of the `u32`/`u64`
fixed decoders is reachable — any input of at least 4 (resp. 8) bytes
decodes successfully to the little-endian value of its 4-byte (8-byte)
prefix, trailing bytes ignored. -/
theorem C9_prefix_decode_total :
    (∀ b : Bytes, 4 ≤ b.length →
      U32.decode_fixed b = some (.ok (leVal (b.take 4)))) ∧
    (∀ b : Bytes, 8 ≤ b.length →
      U64.decode_fixed b = some (.ok (leVal (b.take 8)))) := by
  constructor
  · intro b hb
    rcases b with _ | ⟨b0, _ | ⟨b1, _ | ⟨b2, _ | ⟨b3, rest⟩⟩⟩⟩
    · simp at hb
    · simp only [List.length_cons, List.length_nil] at hb; omega
    · simp only [List.length_cons, List.length_nil] at hb; omega
    · simp only [List.length_cons, List.length_nil] at hb; omega
    · simp [U32.decode_fixed, read_u32, leVal, List.take]
      ring
  · intro b hb
    rcases b with _ | ⟨b0, _ | ⟨b1, _ | ⟨b2, _ | ⟨b3, _ | ⟨b4, _ | ⟨b5, _ |
      ⟨b6, _ | ⟨b7, rest⟩⟩⟩⟩⟩⟩⟩⟩
    · simp at hb
    · simp only [List.length_cons, List.length_nil] at hb; omega
    · simp only [List.length_cons, List.length_nil] at hb; omega
    · simp only [List.length_cons, List.length_nil] at hb; omega
    · simp only [List.length_cons, List.length_nil] at hb; omega
    · simp only [List.length_cons, List.length_nil] at hb; omega
    · simp only [List.length_cons, List.length_nil] at hb; omega
    · simp only [List.length_cons, List.length_nil] at hb; omega
    · simp [U64.decode_fixed, read_u64, leVal, List.take]
      ring

/-- C9 witness: the prefix decode applied at a 5-byte input (one trailing
byte beyond the `u32` width) and a 9-byte input for `u64`. -/
theorem C9_prefix_decode_total_witness :
    U32.decode_fixed [120, 86, 52, 18, 99] =
      some (.ok (leVal ([120, 86, 52, 18, 99].take 4))) ∧
    U64.decode_fixed [1, 0, 0, 0, 0, 0, 0, 0, 7] =
      some (.ok (leVal ([1, 0, 0, 0, 0, 0, 0, 0, 7].take 8))) :=
  ⟨C9_prefix_decode_total.1 [120, 86, 52, 18, 99] (by norm_num),
   C9_prefix_decode_total.2 [1, 0, 0, 0, 0, 0, 0, 0, 7] (by norm_num)⟩

/-- C10: reverse round trip of the byte-buffer and string codecs — for
every byte sequence the `Bytes` codec is the identity in both compositions,
and for every valid-UTF-8 byte sequence `String::decode_fixed` succeeds and
re-encoding reproduces exactly the input bytes. -/
theorem C10_reverse_roundtrip :
    (∀ b : Bytes, BytesCodec.decode_fixed b = .ok b ∧
      BytesCodec.encode_fixed b = .ok b) ∧
    (∀ b : Bytes, validUtf8 b = true →
      ∃ s : RString, RString.decode_fixed b = .ok s ∧
        RString.encode_fixed s = .ok b) := by
  refine ⟨fun b => ⟨rfl, rfl⟩, ?_⟩
  intro b hv
  exact ⟨⟨b, hv⟩, by simp [RString.decode_fixed, hv], rfl⟩

/-- C10 witness: the string clause applied at the bytes of `"abc"`. -/
theorem C10_reverse_roundtrip_witness :
    ∃ s : RString, RString.decode_fixed [97, 98, 99] = .ok s ∧
      RString.encode_fixed s = .ok [97, 98, 99] :=
  C10_reverse_roundtrip.2 [97, 98, 99] (by decide)
